import Mathlib

/-!
Verification of the streaming SSE demultiplexer of the Multi-Agent-AI-Platform
repository, `src/api/agent_router.py`, function `chat_with_agent` (the inner
async generator `generate`).

The embedding models Python strings as `List Char` (a Python `str` is a
sequence of unicode code points).  The per-chunk scan-loop body
(lines 111-186 of agent_router.py) is `feedChunk`, the end-of-stream drain
(lines 188-217) is `drain`, the full success-path event stream is
`runGenerate`/`runScanner`, and the empty-question early return of the
endpoint (lines 72-83) is `chatEndpoint`.

Python's `base64.b64encode(s.encode('utf-8')).decode('ascii')` is modelled
faithfully by `strB64` (UTF-8 encoding of the code points followed by RFC 4648
base64 with padding).  `strB64decode` is the mathematical inverse used to
state the "decoded payload reproduces the original text" properties; it is
proved to be a left inverse of `strB64`.
-/

namespace AgentRouter

/-! ### Base64 (RFC 4648, with padding), as used by Python base64.b64encode -/

def b64alphabet : List Char :=
  "ABCDEFGHIJKLMNOPQRSTUVWXYZabcdefghijklmnopqrstuvwxyz0123456789+/".data

/-- The base64 digit for a sextet value. -/
def b64chr (n : Nat) : Char := b64alphabet.getD n 'A'

def b64idxGo : List Char → Char → Nat → Option Nat
  | [], _, _ => none
  | a :: t, c, i => if a == c then some i else b64idxGo t c (i + 1)

/-- Index of a character in the base64 alphabet (inverse of `b64chr`). -/
def b64idx (c : Char) : Option Nat := b64idxGo b64alphabet c 0

/-- Base64-encode a byte sequence, three bytes at a time, padding with `=`. -/
def b64encode : List Nat → List Char
  | [] => []
  | [b0] => [b64chr (b0 / 4), b64chr (b0 % 4 * 16), '=', '=']
  | [b0, b1] => [b64chr (b0 / 4), b64chr (b0 % 4 * 16 + b1 / 16), b64chr (b1 % 16 * 4), '=']
  | b0 :: b1 :: b2 :: rest =>
      b64chr (b0 / 4) :: b64chr (b0 % 4 * 16 + b1 / 16) ::
      b64chr (b1 % 16 * 4 + b2 / 64) :: b64chr (b2 % 64) :: b64encode rest

/-- Base64-decode; mathematical inverse of `b64encode`, used to state the
"decoded value reproduces the original" claims. -/
def b64decode : List Char → Option (List Nat)
  | [] => some []
  | c0 :: c1 :: c2 :: c3 :: rest =>
      if c2 = '=' ∧ c3 = '=' ∧ rest = [] then do
        let s0 ← b64idx c0
        let s1 ← b64idx c1
        some [s0 * 4 + s1 / 16]
      else if c3 = '=' ∧ rest = [] then do
        let s0 ← b64idx c0
        let s1 ← b64idx c1
        let s2 ← b64idx c2
        some [s0 * 4 + s1 / 16, s1 % 16 * 16 + s2 / 4]
      else do
        let s0 ← b64idx c0
        let s1 ← b64idx c1
        let s2 ← b64idx c2
        let s3 ← b64idx c3
        let tl ← b64decode rest
        some ((s0 * 4 + s1 / 16) :: (s1 % 16 * 16 + s2 / 4) :: (s2 % 4 * 64 + s3) :: tl)
  | _ => none

/-! ### UTF-8, as used by Python str.encode('utf-8') -/

/-- UTF-8 encoding of one unicode code point. -/
def utf8EncodeChar (c : Char) : List Nat :=
  if c.toNat < 128 then [c.toNat]
  else if c.toNat < 2048 then [192 + c.toNat / 64, 128 + c.toNat % 64]
  else if c.toNat < 65536 then
    [224 + c.toNat / 4096, 128 + c.toNat / 64 % 64, 128 + c.toNat % 64]
  else
    [240 + c.toNat / 262144, 128 + c.toNat / 4096 % 64, 128 + c.toNat / 64 % 64,
     128 + c.toNat % 64]

def utf8Encode : List Char → List Nat
  | [] => []
  | c :: t => utf8EncodeChar c ++ utf8Encode t

/-- Decode one UTF-8-encoded code point from the head of a byte sequence,
returning it together with the remaining bytes. -/
def utf8DecodeStep : List Nat → Option (Char × List Nat)
  | [] => none
  | b0 :: rest =>
    if b0 < 128 then some (Char.ofNat b0, rest)
    else if b0 < 192 then none
    else if b0 < 224 then
      match rest with
      | b1 :: rest2 => some (Char.ofNat ((b0 - 192) * 64 + (b1 - 128)), rest2)
      | [] => none
    else if b0 < 240 then
      match rest with
      | b1 :: b2 :: rest2 =>
          some (Char.ofNat ((b0 - 224) * 4096 + (b1 - 128) * 64 + (b2 - 128)), rest2)
      | _ => none
    else
      match rest with
      | b1 :: b2 :: b3 :: rest2 =>
          some (Char.ofNat ((b0 - 240) * 262144 + (b1 - 128) * 4096 + (b2 - 128) * 64
            + (b3 - 128)), rest2)
      | _ => none

def utf8DecodeGo : Nat → List Nat → Option (List Char)
  | _, [] => some []
  | 0, _ :: _ => none
  | fuel + 1, b0 :: rest =>
    match utf8DecodeStep (b0 :: rest) with
    | some (c, rest2) => (utf8DecodeGo fuel rest2).map (fun t => c :: t)
    | none => none

/-- UTF-8 decoding; mathematical inverse of `utf8Encode` on its range. -/
def utf8Decode (bs : List Nat) : Option (List Char) := utf8DecodeGo bs.length bs

/-- Python `base64.b64encode(text.encode('utf-8')).decode('ascii')`. -/
def strB64 (t : List Char) : List Char := b64encode (utf8Encode t)

/-- Inverse: base64-decode then UTF-8-decode. -/
def strB64decode (d : List Char) : Option (List Char) := (b64decode d).bind utf8Decode

/-! ### Python string primitives used by the scan loop -/

/-- Python `s.startswith(p)`: `p` is a prefix of `l`. -/
def startsWith : List Char → List Char → Bool
  | [], _ => true
  | a :: as, l =>
    match l with
    | [] => false
    | b :: bs => a == b && startsWith as bs

/-- Python `s.endswith(p)`: `p` is a suffix of `l`. -/
def endsWith (p l : List Char) : Bool := startsWith p.reverse l.reverse

/-- Python `sub in s` (substring containment). -/
def containsSub (l p : List Char) : Bool :=
  match l with
  | [] => p.isEmpty
  | _ :: t => startsWith p l || containsSub t p

/-- Worker for Python `s.count(sub)` (non-overlapping, left to right);
`skip` is the number of positions still covered by the previous match. -/
def countSubGo (p : List Char) : List Char → Nat → Nat
  | [], _ => 0
  | c :: t, 0 => if startsWith p (c :: t) then 1 + countSubGo p t (p.length - 1)
                 else countSubGo p t 0
  | _ :: t, skip + 1 => countSubGo p t skip

/-- Python `s.count(sub)` for a non-empty `sub`. -/
def countSub (l p : List Char) : Nat := countSubGo p l 0

def findSubGo (p : List Char) : List Char → Option Nat
  | [] => if p.isEmpty then some 0 else none
  | c :: t => if startsWith p (c :: t) then some 0 else (findSubGo p t).map (· + 1)

/-- Python `s.find(sub)` (`none` models the -1 result). -/
def findSub (l p : List Char) : Option Nat := findSubGo p l

/-- Python `s.rfind(ch)` for a single character (`none` models -1). -/
def rfindChar : List Char → Char → Option Nat
  | [], _ => none
  | c :: t, x =>
    match rfindChar t x with
    | some i => some (i + 1)
    | none => if c = x then some 0 else none

/-- The brace-depth scan of agent_router.py lines 139-148 over a suffix:
depth +1 on `{`, -1 on `}`; the first `]` at depth 0 is the end.  Returns the
offset of that `]` within the scanned suffix. -/
def scanDepth : List Char → Int → Option Nat
  | [], _ => none
  | c :: t, d =>
    if c = '{' then (scanDepth t (d + 1)).map (· + 1)
    else if c = '}' then (scanDepth t (d - 1)).map (· + 1)
    else if c = ']' ∧ d = 0 then some 0
    else (scanDepth t d).map (· + 1)

/-- ASCII portion of Python `str.isspace` (the characters `str.strip()`
removes); the inputs of interest contain no exotic unicode whitespace. -/
def isPySpace (c : Char) : Bool :=
  c == ' ' || c == '\t' || c == '\n' || c == '\r' || c == Char.ofNat 11 || c == Char.ofNat 12

/-- Python truthiness of `s.strip()`: some non-whitespace character exists. -/
def hasNonWs (t : List Char) : Bool := t.any (fun c => !(isPySpace c))

/-! ### Events and the scanner -/

/-- The SSE event kinds emitted by `chat_with_agent.generate`; each carries
the literal `data:` payload (base64 text for the base64-carrying channels). -/
inductive Event where
  | answer (text : List Char)
  | answerBase64 (data : List Char)
  | image (data : List Char)
  | imageMeta (data : List Char)
  | chart (data : List Char)
  | done
  | error (msg : List Char)
deriving DecidableEq

/-- Lines 179-184 / 213-217: plain text goes to `answer`, unless it contains
a literal newline, in which case the whole span goes to `answer_base64`. -/
def plainEvent (t : List Char) : Event :=
  if t.contains '\n' then .answerBase64 (strB64 t) else .answer t

def imgPfx : List Char := "[IMAGE:".data
def metaPfx : List Char := "[IMAGE_META:".data
def chartPfx : List Char := "[CHART:".data
def closeBr : List Char := "]".data
def escClose : List Char := "\\]".data

/-- Line 116: `buffer.startswith("[IMAGE:") and buffer.endswith("]")`. -/
def imgCond (b : List Char) : Bool := startsWith imgPfx b && endsWith closeBr b

/-- Line 125: `buffer.startswith("[IMAGE_META:") and buffer.endswith("]")`. -/
def metaCond (b : List Char) : Bool := startsWith metaPfx b && endsWith closeBr b

/-- Line 172: `buffer.startswith("[IMAGE") or buffer.startswith("[CHART") or
buffer.startswith("[")`. -/
def candidate (b : List Char) : Bool :=
  startsWith "[IMAGE".data b || startsWith "[CHART".data b || startsWith "[".data b

/-- Line 135: `"[CHART:" in buffer and buffer.count("[CHART:") ==
buffer.count("]") - buffer.count("\\]")` (the count heuristic). -/
def chartHeuristic (b : List Char) : Bool :=
  containsSub b chartPfx &&
    ((countSub b chartPfx : Int) == (countSub b closeBr : Int) - (countSub b escClose : Int))

/-- Lines 135-150: if the heuristic fires, locate the chart span via the
brace-depth scan.  `some (pre, payload, rest)` gives the text before the
marker, the inner payload `buffer[start+7:end]`, and the remainder
`buffer[end+1:]`; `none` means the branch falls through. -/
def chartAttempt (b : List Char) : Option (List Char × List Char × List Char) :=
  if chartHeuristic b then
    match findSub b chartPfx with
    | none => none
    | some s =>
      match scanDepth (b.drop (s + 7)) 0 with
      | none => none
      | some off =>
          some (b.take s, (b.drop (s + 7)).take off, b.drop (s + 7 + off + 1))
  else none

/-- One iteration of the `async for chunk in agent.run_stream(...)` loop body
(lines 111-186): append the chunk to the pending buffer, then run the branch
chain.  Returns the events yielded during this iteration and the buffer
retained for the next one. -/
def feedChunk (buf chunk : List Char) : List Event × List Char :=
  let b := buf ++ chunk
  if imgCond b then ([.image ((b.drop 7).dropLast)], [])
  else if metaCond b then ([.imageMeta (strB64 ((b.drop 12).dropLast))], [])
  else
    match chartAttempt b with
    | some (pre, pay, rest) =>
        ((if hasNonWs pre then [plainEvent pre] else []) ++ [.chart (strB64 pay)], rest)
    | none =>
        if candidate b && b.length < 50000 then ([], b)
        else ([plainEvent b], [])

/-- The end-of-stream drain of the remaining buffer (lines 188-217). -/
def drain (b : List Char) : List Event :=
  if b.isEmpty then []
  else if containsSub b chartPfx then
    match findSub b chartPfx, rfindChar b ']' with
    | some s, some e =>
      if s < e then
        (if hasNonWs (b.take s) then [.answerBase64 (strB64 (b.take s))] else [])
        ++ [.chart (strB64 ((b.drop (s + 7)).take (e - (s + 7))))]
        ++ (if hasNonWs (b.drop (e + 1)) then [.answerBase64 (strB64 (b.drop (e + 1)))] else [])
      else []
    | _, _ => []
  else [plainEvent b]

/-- Feed a sequence of chunks through the loop, threading the buffer. -/
def feedAll (buf : List Char) : List (List Char) → List Event × List Char
  | [] => ([], buf)
  | c :: cs =>
    let r1 := feedChunk buf c
    let r2 := feedAll r1.2 cs
    (r1.1 ++ r2.1, r2.2)

/-- The scan loop plus the end-of-stream drain. -/
def runScanner (chunks : List (List Char)) : List Event :=
  (feedAll [] chunks).1 ++ drain (feedAll [] chunks).2

/-- Line 230: the fixed generic error message. -/
def errMsg : List Char := "处理您的问题时出现错误，请稍后重试。".data

/-- Line 82: the fixed empty-question error message. -/
def emptyQuestionMsg : List Char := "问题不能为空".data

/-- The whole generator: on a clean end of stream, scan, drain, then `done`
(lines 219-225); if the producer raises (modelled by `some excMsg` carrying
the exception text) the iteration aborts after the fed chunks, the buffer is
not drained, and a single `error` event with the fixed message is yielded
(lines 227-232). -/
def runGenerate (chunks : List (List Char)) (excMsg : Option (List Char)) : List Event :=
  match excMsg with
  | none => runScanner chunks ++ [.done]
  | some _ => (feedAll [] chunks).1 ++ [.error errMsg]

/-- The endpoint (lines 72-83): if the stripped question is empty, the
response stream is a single `error` event and the agent is never run;
otherwise the generator's stream is returned. -/
def chatEndpoint (question : List Char) (chunks : List (List Char))
    (excMsg : Option (List Char)) : List Event :=
  if question.all isPySpace then [.error emptyQuestionMsg]
  else runGenerate chunks excMsg

/-- The answer streaming loop of `src/api/ask_api.py` lines 486-487
(`query_stream.generate`): each chunk produced by `stream_chat_response` is
yielded directly as `event: answer\ndata: {chunk}` — no newline guard, and
this revision has no `answer_base64` channel at all. -/
def askApiAnswerLoop : List (List Char) → List Event
  | [] => []
  | c :: cs => .answer c :: askApiAnswerLoop cs

/-! ### Observations used to state the claims -/

/-- The decoded text carried by a text-bearing event. -/
def eventText : Event → List Char
  | .answer t => t
  | .answerBase64 d => (strB64decode d).getD []
  | _ => []

/-- Concatenation of the decoded text of all answer / answer_base64 events. -/
def textContent : List Event → List Char
  | [] => []
  | e :: es => eventText e ++ textContent es

/-- Newline-safety of a single event: an `answer` payload has no literal
newline, and an `answer_base64` payload is the encoding of a text it decodes
back to. -/
def goodEvent (e : Event) : Prop :=
  (∀ t, e = .answer t → t.contains '\n' = false) ∧
  (∀ d, e = .answerBase64 d → ∃ t, d = strB64 t ∧ strB64decode d = some t)

def isErrorEvt : Event → Bool
  | .error _ => true
  | _ => false

def isDoneEvt : Event → Bool
  | .done => true
  | _ => false

/-- No recognized marker opening occurs anywhere in the text. -/
def noMarkerB (s : List Char) : Prop :=
  containsSub s imgPfx = false ∧ containsSub s metaPfx = false ∧
    containsSub s chartPfx = false

instance noMarkerB_decidable (s : List Char) : Decidable (noMarkerB s) :=
  inferInstanceAs (Decidable (containsSub s imgPfx = false ∧
    containsSub s metaPfx = false ∧ containsSub s chartPfx = false))

/-! ### Roundtrip lemmas for the encodings -/

lemma b64idx_b64chr : ∀ n, n < 64 → b64idx (b64chr n) = some n := by decide

lemma b64chr_ne_pad : ∀ n, b64chr n ≠ '=' := by
  intro n
  by_cases h : n < 64
  · revert n h
    decide
  · have hlen : b64alphabet.length ≤ n := by
      have : b64alphabet.length = 64 := rfl
      omega
    unfold b64chr
    rw [List.getD_eq_getElem?_getD, List.getElem?_eq_none hlen]
    decide

theorem b64decode_encode : ∀ bs : List Nat, (∀ b ∈ bs, b < 256) →
    b64decode (b64encode bs) = some bs
  | [], _ => rfl
  | [b0], h => by
    have hb0 : b0 < 256 := h b0 (by simp)
    have h1 : b0 / 4 < 64 := by omega
    have h2 : b0 % 4 * 16 < 64 := by omega
    simp [b64encode, b64decode, b64idx_b64chr _ h1, b64idx_b64chr _ h2]
    omega
  | [b0, b1], h => by
    have hb0 : b0 < 256 := h b0 (by simp)
    have hb1 : b1 < 256 := h b1 (by simp)
    have h1 : b0 / 4 < 64 := by omega
    have h2 : b0 % 4 * 16 + b1 / 16 < 64 := by omega
    have h3 : b1 % 16 * 4 < 64 := by omega
    simp [b64encode, b64decode, b64chr_ne_pad, b64idx_b64chr _ h1,
      b64idx_b64chr _ h2, b64idx_b64chr _ h3]
    omega
  | b0 :: b1 :: b2 :: rest, h => by
    have hb0 : b0 < 256 := h b0 (by simp)
    have hb1 : b1 < 256 := h b1 (by simp)
    have hb2 : b2 < 256 := h b2 (by simp)
    have h1 : b0 / 4 < 64 := by omega
    have h2 : b0 % 4 * 16 + b1 / 16 < 64 := by omega
    have h3 : b1 % 16 * 4 + b2 / 64 < 64 := by omega
    have h4 : b2 % 64 < 64 := by omega
    have ih := b64decode_encode rest (fun b hb =>
      h b (List.mem_cons_of_mem _ (List.mem_cons_of_mem _ (List.mem_cons_of_mem _ hb))))
    simp [b64encode, b64decode, b64chr_ne_pad, b64idx_b64chr _ h1,
      b64idx_b64chr _ h2, b64idx_b64chr _ h3, b64idx_b64chr _ h4, ih]
    omega

lemma char_toNat_lt (c : Char) : c.toNat < 1114112 := by
  rcases c.valid with h | ⟨_, h⟩
  · exact Nat.lt_trans h (by norm_num)
  · exact h

lemma utf8EncodeChar_lt (c : Char) : ∀ b ∈ utf8EncodeChar c, b < 256 := by
  intro b hb
  have hv := char_toNat_lt c
  unfold utf8EncodeChar at hb
  split at hb
  · simp at hb; omega
  · split at hb
    · simp at hb; rcases hb with h | h <;> omega
    · split at hb
      · simp at hb; rcases hb with h | h | h <;> omega
      · simp at hb; rcases hb with h | h | h | h <;> omega

lemma utf8Encode_lt : ∀ s : List Char, ∀ b ∈ utf8Encode s, b < 256
  | [], _, hb => by simp [utf8Encode] at hb
  | c :: t, b, hb => by
    simp only [utf8Encode, List.mem_append] at hb
    rcases hb with h | h
    · exact utf8EncodeChar_lt c b h
    · exact utf8Encode_lt t b h

lemma utf8EncodeChar_ne_nil (c : Char) : utf8EncodeChar c ≠ [] := by
  unfold utf8EncodeChar
  split
  · simp
  · split
    · simp
    · split <;> simp

/-- Decoding one step undoes the encoding of one code point. -/
lemma utf8DecodeStep_encodeChar (c : Char) (r : List Nat) :
    utf8DecodeStep (utf8EncodeChar c ++ r) = some (c, r) := by
  have hv := char_toNat_lt c
  have hofn : Char.ofNat c.toNat = c := Char.ofNat_toNat c
  unfold utf8EncodeChar
  by_cases h1 : c.toNat < 128
  · simp only [if_pos h1, List.cons_append, List.nil_append]
    simp [utf8DecodeStep, h1, hofn]
  · by_cases h2 : c.toNat < 2048
    · simp only [if_neg h1, if_pos h2, List.cons_append, List.nil_append]
      have c1 : ¬(192 + c.toNat / 64 < 128) := by omega
      have c2 : ¬(192 + c.toNat / 64 < 192) := by omega
      have c3 : 192 + c.toNat / 64 < 224 := by omega
      have e : (192 + c.toNat / 64 - 192) * 64 + (128 + c.toNat % 64 - 128) = c.toNat := by
        omega
      simp [utf8DecodeStep, c1, c2, c3, e, hofn]
      rw [show c.toNat / 64 * 64 + c.toNat % 64 = c.toNat from by omega, hofn]
    · by_cases h3 : c.toNat < 65536
      · simp only [if_neg h1, if_neg h2, if_pos h3, List.cons_append, List.nil_append]
        have c1 : ¬(224 + c.toNat / 4096 < 128) := by omega
        have c2 : ¬(224 + c.toNat / 4096 < 192) := by omega
        have c3 : ¬(224 + c.toNat / 4096 < 224) := by omega
        have c4 : 224 + c.toNat / 4096 < 240 := by omega
        have e : (224 + c.toNat / 4096 - 224) * 4096 + (128 + c.toNat / 64 % 64 - 128) * 64
            + (128 + c.toNat % 64 - 128) = c.toNat := by omega
        simp [utf8DecodeStep, c1, c2, c3, c4, e, hofn]
        rw [show c.toNat / 4096 * 4096 + c.toNat / 64 % 64 * 64 + c.toNat % 64 = c.toNat
          from by omega, hofn]
      · simp only [if_neg h1, if_neg h2, if_neg h3, List.cons_append, List.nil_append]
        have c1 : ¬(240 + c.toNat / 262144 < 128) := by omega
        have c2 : ¬(240 + c.toNat / 262144 < 192) := by omega
        have c3 : ¬(240 + c.toNat / 262144 < 224) := by omega
        have c4 : ¬(240 + c.toNat / 262144 < 240) := by omega
        have e : (240 + c.toNat / 262144 - 240) * 262144
            + (128 + c.toNat / 4096 % 64 - 128) * 4096
            + (128 + c.toNat / 64 % 64 - 128) * 64 + (128 + c.toNat % 64 - 128)
            = c.toNat := by omega
        simp [utf8DecodeStep, c1, c2, c3, c4, e, hofn]
        rw [show c.toNat / 262144 * 262144 + c.toNat / 4096 % 64 * 4096
          + c.toNat / 64 % 64 * 64 + c.toNat % 64 = c.toNat from by omega, hofn]

lemma utf8DecodeGo_encode : ∀ (s : List Char) (fuel : Nat),
    (utf8Encode s).length ≤ fuel → utf8DecodeGo fuel (utf8Encode s) = some s
  | [], fuel, _ => by cases fuel <;> rfl
  | c :: t, fuel, hf => by
    have hne : utf8EncodeChar c ≠ [] := utf8EncodeChar_ne_nil c
    have hlen : 1 ≤ (utf8EncodeChar c).length := by
      cases hc : utf8EncodeChar c with
      | nil => exact absurd hc hne
      | cons _ _ => simp
    have henc : utf8Encode (c :: t) = utf8EncodeChar c ++ utf8Encode t := rfl
    rw [henc] at hf ⊢
    have hlen2 : (utf8Encode t).length + 1 ≤ fuel := by
      rw [List.length_append] at hf
      omega
    obtain ⟨f, rfl⟩ : ∃ f, fuel = f + 1 := ⟨fuel - 1, by omega⟩
    have ih := utf8DecodeGo_encode t f (by omega)
    cases hc : utf8EncodeChar c with
    | nil => exact absurd hc hne
    | cons b0 bs =>
      have hstep := utf8DecodeStep_encodeChar c (utf8Encode t)
      rw [hc] at hstep
      simp only [List.cons_append]
      rw [List.cons_append] at hstep
      show (match utf8DecodeStep (b0 :: (bs ++ utf8Encode t)) with
        | some (c, rest2) => (utf8DecodeGo f rest2).map (fun t => c :: t)
        | none => none) = some (c :: t)
      rw [hstep]
      simp [ih]

theorem utf8Decode_encode (s : List Char) : utf8Decode (utf8Encode s) = some s :=
  utf8DecodeGo_encode s (utf8Encode s).length (Nat.le_refl _)

/-- `strB64decode` is a left inverse of `strB64`: the base64 channel loses no
information. -/
theorem strB64_roundtrip (t : List Char) : strB64decode (strB64 t) = some t := by
  unfold strB64 strB64decode
  rw [b64decode_encode _ (utf8Encode_lt t)]
  simpa using utf8Decode_encode t

/-! ### Substring helper lemmas -/

lemma startsWith_cons (a b : Char) (as bs : List Char) :
    startsWith (a :: as) (b :: bs) = (a == b && startsWith as bs) := rfl

lemma startsWith_append_of : ∀ (p l r : List Char), startsWith p l = true →
    startsWith p (l ++ r) = true
  | [], _, _, _ => rfl
  | _ :: _, [], _, h => by simp [startsWith] at h
  | a :: as, b :: bs, r, h => by
    show (a == b && startsWith as (bs ++ r)) = true
    rw [startsWith_cons, Bool.and_eq_true] at h
    rw [Bool.and_eq_true]
    exact ⟨h.1, startsWith_append_of as bs r h.2⟩

lemma containsSub_of_startsWith {p l : List Char} (h : startsWith p l = true) :
    containsSub l p = true := by
  cases l with
  | nil =>
    cases p with
    | nil => rfl
    | cons a as => simp [startsWith] at h
  | cons b bs => simp [containsSub, h]

lemma containsSub_append_left : ∀ (l r p : List Char), containsSub l p = true →
    containsSub (l ++ r) p = true
  | [], r, p, h => by
    have hp : p = [] := by
      cases p with
      | nil => rfl
      | cons a as => simp [containsSub, List.isEmpty] at h
    subst hp
    cases r with
    | nil => rfl
    | cons b bs => simp [containsSub, startsWith]
  | c :: t, r, p, h => by
    rw [containsSub] at h
    rw [List.cons_append, containsSub]
    rcases Bool.or_eq_true _ _ |>.mp h with h1 | h1
    · rw [Bool.or_eq_true]
      exact Or.inl (startsWith_append_of p (c :: t) r h1)
    · rw [Bool.or_eq_true]
      exact Or.inr (containsSub_append_left t r p h1)

lemma containsSub_append_right : ∀ (l r p : List Char), containsSub r p = true →
    containsSub (l ++ r) p = true
  | [], _, _, h => h
  | c :: t, r, p, h => by
    rw [List.cons_append, containsSub]
    simp [containsSub_append_right t r p h]

lemma containsSub_false_left {l r p : List Char} (h : containsSub (l ++ r) p = false) :
    containsSub l p = false := by
  cases hc : containsSub l p with
  | false => rfl
  | true => rw [containsSub_append_left l r p hc] at h; cases h

lemma containsSub_false_right {l r p : List Char} (h : containsSub (l ++ r) p = false) :
    containsSub r p = false := by
  cases hc : containsSub r p with
  | false => rfl
  | true => rw [containsSub_append_right l r p hc] at h; cases h

lemma chartAttempt_none_of_not_contains {b : List Char}
    (h : containsSub b chartPfx = false) : chartAttempt b = none := by
  unfold chartAttempt chartHeuristic
  rw [h]
  rfl

lemma imgCond_false_of_not_contains {b : List Char}
    (h : containsSub b imgPfx = false) : imgCond b = false := by
  unfold imgCond
  cases hp : startsWith imgPfx b with
  | false => rfl
  | true => rw [containsSub_of_startsWith hp] at h; cases h

lemma metaCond_false_of_not_contains {b : List Char}
    (h : containsSub b metaPfx = false) : metaCond b = false := by
  unfold metaCond
  cases hp : startsWith metaPfx b with
  | false => rfl
  | true => rw [containsSub_of_startsWith hp] at h; cases h

/-! ### Event classification lemmas -/

/-- Every event the scan loop or the drain can emit: it is never `done` or
`error`, answers are newline-free, and base64 answers decode back. -/
def emittedOk (e : Event) : Prop :=
  goodEvent e ∧ (∀ s, e ≠ .error s) ∧ e ≠ .done

lemma goodEvent_plainEvent (t : List Char) : goodEvent (plainEvent t) := by
  unfold plainEvent
  split
  · refine ⟨fun t2 ht => ?_, fun d hd => ?_⟩
    · cases ht
    · cases hd
      exact ⟨t, rfl, strB64_roundtrip t⟩
  · next h =>
    refine ⟨fun t2 ht => ?_, fun d hd => ?_⟩
    · cases ht
      simpa using h
    · cases hd

lemma emittedOk_plainEvent (t : List Char) : emittedOk (plainEvent t) := by
  refine ⟨goodEvent_plainEvent t, ?_, ?_⟩ <;> unfold plainEvent <;> split <;> simp

lemma emittedOk_answerBase64 (t : List Char) : emittedOk (.answerBase64 (strB64 t)) := by
  refine ⟨⟨fun t2 ht => ?_, fun d hd => ?_⟩, ?_, ?_⟩
  · cases ht
  · cases hd
    exact ⟨t, rfl, strB64_roundtrip t⟩
  · simp
  · simp

lemma emittedOk_image (d : List Char) : emittedOk (.image d) := by
  refine ⟨⟨fun t2 ht => ?_, fun d2 hd => ?_⟩, ?_, ?_⟩ <;> first | cases ht | cases hd | simp

lemma emittedOk_imageMeta (d : List Char) : emittedOk (.imageMeta d) := by
  refine ⟨⟨fun t2 ht => ?_, fun d2 hd => ?_⟩, ?_, ?_⟩ <;> first | cases ht | cases hd | simp

lemma emittedOk_chart (d : List Char) : emittedOk (.chart d) := by
  refine ⟨⟨fun t2 ht => ?_, fun d2 hd => ?_⟩, ?_, ?_⟩ <;> first | cases ht | cases hd | simp

lemma feedChunk_ok (buf chunk : List Char) :
    ∀ e ∈ (feedChunk buf chunk).1, emittedOk e := by
  intro e he
  simp only [feedChunk] at he
  split at he
  · simp only [List.mem_singleton] at he
    subst he; exact emittedOk_image _
  · split at he
    · simp only [List.mem_singleton] at he
      subst he; exact emittedOk_imageMeta _
    · split at he
      · next pre pay rest heq =>
        rcases List.mem_append.mp he with h | h
        · split at h
          · simp only [List.mem_singleton] at h
            subst h; exact emittedOk_plainEvent _
          · cases h
        · simp only [List.mem_singleton] at h
          subst h; exact emittedOk_chart _
      · split at he
        · cases he
        · simp only [List.mem_singleton] at he
          subst he; exact emittedOk_plainEvent _

lemma drain_ok (b : List Char) : ∀ e ∈ drain b, emittedOk e := by
  intro e he
  unfold drain at he
  split at he
  · cases he
  · split at he
    · split at he
      · split at he
        · rcases List.mem_append.mp he with h | h
          · rcases List.mem_append.mp h with h2 | h2
            · split at h2
              · simp only [List.mem_singleton] at h2
                subst h2; exact emittedOk_answerBase64 _
              · cases h2
            · simp only [List.mem_singleton] at h2
              subst h2; exact emittedOk_chart _
          · split at h
            · simp only [List.mem_singleton] at h
              subst h; exact emittedOk_answerBase64 _
            · cases h
        · cases he
      · cases he
    · simp only [List.mem_singleton] at he
      subst he; exact emittedOk_plainEvent _

lemma feedAll_ok : ∀ (chunks : List (List Char)) (buf : List Char),
    ∀ e ∈ (feedAll buf chunks).1, emittedOk e
  | [], _, _, he => by cases he
  | c :: cs, buf, e, he => by
    simp only [feedAll] at he
    rcases List.mem_append.mp he with h | h
    · exact feedChunk_ok buf c e h
    · exact feedAll_ok cs (feedChunk buf c).2 e h

lemma scanner_ok (chunks : List (List Char)) : ∀ e ∈ runScanner chunks, emittedOk e := by
  intro e he
  rcases List.mem_append.mp he with h | h
  · exact feedAll_ok chunks [] e h
  · exact drain_ok _ e h

/-! ### Text-content lemmas -/

lemma textContent_append : ∀ l1 l2 : List Event,
    textContent (l1 ++ l2) = textContent l1 ++ textContent l2
  | [], _ => rfl
  | e :: es, l2 => by
    show eventText e ++ textContent (es ++ l2)
      = (eventText e ++ textContent es) ++ textContent l2
    rw [textContent_append es l2, List.append_assoc]

lemma eventText_plainEvent (t : List Char) : eventText (plainEvent t) = t := by
  unfold plainEvent
  split
  · simp [eventText, strB64_roundtrip]
  · rfl

/-! ### Plain-text fidelity -/

lemma feedChunk_no_marker (buf c : List Char)
    (h1 : containsSub (buf ++ c) imgPfx = false)
    (h2 : containsSub (buf ++ c) metaPfx = false)
    (h3 : containsSub (buf ++ c) chartPfx = false) :
    feedChunk buf c =
      if candidate (buf ++ c) && decide ((buf ++ c).length < 50000)
      then ([], buf ++ c) else ([plainEvent (buf ++ c)], []) := by
  simp only [feedChunk, imgCond_false_of_not_contains h1,
    metaCond_false_of_not_contains h2, chartAttempt_none_of_not_contains h3,
    Bool.false_eq_true, if_false]

lemma drain_no_marker (b : List Char) (h3 : containsSub b chartPfx = false) :
    drain b = if b.isEmpty then [] else [plainEvent b] := by
  unfold drain
  rw [h3]
  simp

lemma scan_fidelity : ∀ (chunks : List (List Char)) (buf : List Char),
    noMarkerB (buf ++ chunks.flatten) →
    textContent ((feedAll buf chunks).1 ++ drain (feedAll buf chunks).2)
      = buf ++ chunks.flatten
  | [], buf, hno => by
    rw [List.flatten_nil, List.append_nil] at hno ⊢
    obtain ⟨_, _, h3⟩ := hno
    show textContent (([] : List Event) ++ drain buf) = buf
    rw [List.nil_append, drain_no_marker buf h3]
    split
    · next hb =>
      have : buf = [] := List.isEmpty_iff.mp hb
      simp [textContent, this]
    · show eventText (plainEvent buf) ++ textContent [] = buf
      rw [eventText_plainEvent]
      simp [textContent]
  | c :: cs, buf, hno => by
    rw [List.flatten_cons, ← List.append_assoc] at hno ⊢
    obtain ⟨h1, h2, h3⟩ := hno
    have hfc := feedChunk_no_marker buf c (containsSub_false_left h1)
      (containsSub_false_left h2) (containsSub_false_left h3)
    simp only [feedAll]
    rw [hfc]
    by_cases hcond : (candidate (buf ++ c) && decide ((buf ++ c).length < 50000)) = true
    · rw [if_pos hcond]
      simpa using scan_fidelity cs (buf ++ c) ⟨h1, h2, h3⟩
    · rw [if_neg hcond]
      have hnor : noMarkerB (([] : List Char) ++ cs.flatten) := by
        rw [List.nil_append]
        exact ⟨containsSub_false_right h1, containsSub_false_right h2,
          containsSub_false_right h3⟩
      have ih := scan_fidelity cs [] hnor
      rw [List.nil_append] at ih
      show textContent (([plainEvent (buf ++ c)] ++ (feedAll [] cs).1)
        ++ drain (feedAll [] cs).2) = (buf ++ c) ++ cs.flatten
      rw [List.append_assoc, textContent_append]
      show (eventText (plainEvent (buf ++ c)) ++ textContent [])
        ++ textContent ((feedAll [] cs).1 ++ drain (feedAll [] cs).2)
        = (buf ++ c) ++ cs.flatten
      rw [eventText_plainEvent, ih]
      simp [textContent]

/-! ### Concrete evaluations of the scan loop -/

/-- Claim C1: chunk-boundary invariance fails on the code.  The string `"ab"`
fed as a single fragment yields one `answer` event, while fed as the two
fragments `"a"`, `"b"` it yields two `answer` events, so the event sequence
depends on the fragmentation. -/
theorem C1_chunk_boundary_eval :
    runScanner [['a', 'b']] = [.answer ['a', 'b']] ∧
    runScanner [['a'], ['b']] = [.answer ['a'], .answer ['b']] ∧
    runScanner [['a', 'b']] ≠ runScanner [['a'], ['b']] := by decide

/-- Claim C2 (counterexample): fed as a single fragment, the input
`"hello [IMAGE:QUJD] world"` is emitted as one `answer` event containing the
whole string — no `image` event is produced, because the loop only recognizes
an image marker when the buffer starts with `[IMAGE:` and ends with `]`. -/
theorem C2_single_fragment_counterexample :
    runScanner ["hello [IMAGE:QUJD] world".data] =
      [.answer "hello [IMAGE:QUJD] world".data] ∧
    runScanner ["hello [IMAGE:QUJD] world".data] ≠
      [.answer "hello ".data, .image "QUJD".data, .answer " world".data] := by decide

/-- Claim C2 (amended): when the marker arrives as its own complete fragment,
the input yields exactly `Answer("hello ")`, `Image("QUJD")`,
`Answer(" world")` in order. -/
theorem C2_marker_aligned_fragments :
    runScanner ["hello ".data, "[IMAGE:QUJD]".data, " world".data] =
      [.answer "hello ".data, .image "QUJD".data, .answer " world".data] := by decide

/-- Claim C3: on `"see [CHART:\x7b\"a\":[1,2,3]\x7d] done"` (any single-fragment
feed) the count heuristic of line 135 fails (one `[CHART:` against two `]`),
so no chart event is produced at all: the whole string is emitted as one
`answer` event.  The brace-depth scan mandated by the spec would have
extracted `{"a":[1,2,3]}`. -/
theorem C3_heuristic_eval :
    runScanner ["see [CHART:\x7b\"a\":[1,2,3]\x7d] done".data] =
      [.answer "see [CHART:\x7b\"a\":[1,2,3]\x7d] done".data] := by decide

/-- Claim C4: data loss on truncation.  Feeding `"prefix "` then the
unterminated `"[CHART:\x7b\"x\":1"` emits only `Answer("prefix ")`; the
buffered tail is silently discarded by the drain (its `rfind("]")` finds no
terminator and the branch emits nothing). -/
theorem C4_truncation_eval :
    runScanner ["prefix ".data, "[CHART:\x7b\"x\":1".data] =
      [.answer "prefix ".data] := by decide

/-- Claim C5 (counterexample): the claim as stated also covers the answer
loop of ask_api.py `query_stream.generate` (its second cited site), and there
the invariant fails: a chunk containing a literal newline is yielded as an
`answer` event whose payload contains that newline. -/
theorem C5_ask_api_counterexample :
    askApiAnswerLoop [['a', '\n', 'b']] = [Event.answer ['a', '\n', 'b']] ∧
    (['a', '\n', 'b'].contains '\n') = true := by decide

/-- Claim C5 (amended): newline safety, scoped to the demultiplexer of
agent_router.py (the revision that has the `answer_base64` channel).  For
every fragmentation of every input, every `answer` event emitted by the scan
loop and the drain contains no literal newline, and every `answer_base64`
event carries the encoding of a text that its payload decodes back to
exactly. -/
theorem C5_newline_safety (chunks : List (List Char)) (e : Event)
    (he : e ∈ runScanner chunks) : goodEvent e :=
  (scanner_ok chunks e he).1

/-- Claim C5 witness: a concrete run with a concrete emitted event. -/
theorem C5_newline_safety_witness : goodEvent (Event.answer ['h', 'i']) :=
  C5_newline_safety [['h', 'i']] (Event.answer ['h', 'i']) (by decide)

/-- Claim C7: plain-text fidelity.  If the full input contains none of the
three marker openings `[IMAGE:`, `[IMAGE_META:`, `[CHART:`, then for every
fragmentation the concatenated decoded text of the emitted
`answer`/`answer_base64` events is exactly the input. -/
theorem C7_plain_text_fidelity (chunks : List (List Char))
    (hno : noMarkerB chunks.flatten) :
    textContent (runScanner chunks) = chunks.flatten := by
  have h := scan_fidelity chunks [] (by rw [List.nil_append]; exact hno)
  rw [List.nil_append] at h
  exact h

/-- Claim C7 witness: a concrete marker-free fragmented input. -/
theorem C7_plain_text_fidelity_witness :
    textContent (runScanner [['a'], ['[', 'x'], ['\n', 'b']])
      = List.flatten [['a'], ['[', 'x'], ['\n', 'b']] :=
  C7_plain_text_fidelity [['a'], ['[', 'x'], ['\n', 'b']] (by decide)

lemma isErrorEvt_eq_false {e : Event} (h : ∀ s, e ≠ .error s) : isErrorEvt e = false := by
  cases e with
  | error s => exact absurd rfl (h s)
  | _ => rfl

lemma isDoneEvt_eq_false {e : Event} (h : e ≠ .done) : isDoneEvt e = false := by
  cases e with
  | done => exact absurd rfl h
  | _ => rfl

/-- Claim C9: error terminality.  If the producer raises, the stream is the
events of the already-fed chunks followed by exactly one `error` event whose
message is the fixed constant `errMsg` (independent of the exception text
`m`), the `error` event is last, and no `done` event occurs.  On a clean end
of stream no `error` is emitted and the stream ends with a single `done`. -/
theorem C9_error_terminality (chunks : List (List Char)) (m : List Char) :
    ((runGenerate chunks (some m)).filter isErrorEvt = [.error errMsg] ∧
     (runGenerate chunks (some m)).getLast? = some (.error errMsg) ∧
     (runGenerate chunks (some m)).filter isDoneEvt = []) ∧
    ((runGenerate chunks none).filter isErrorEvt = [] ∧
     (runGenerate chunks none).filter isDoneEvt = [.done] ∧
     (runGenerate chunks none).getLast? = some .done) := by
  have hfeed : ∀ e ∈ (feedAll [] chunks).1, emittedOk e := feedAll_ok chunks []
  have hscan : ∀ e ∈ runScanner chunks, emittedOk e := scanner_ok chunks
  have hfeedErr : (feedAll [] chunks).1.filter isErrorEvt = [] :=
    List.filter_eq_nil_iff.mpr fun e he => by
      rw [isErrorEvt_eq_false (hfeed e he).2.1]; simp
  have hfeedDone : (feedAll [] chunks).1.filter isDoneEvt = [] :=
    List.filter_eq_nil_iff.mpr fun e he => by
      rw [isDoneEvt_eq_false (hfeed e he).2.2]; simp
  have hscanErr : (runScanner chunks).filter isErrorEvt = [] :=
    List.filter_eq_nil_iff.mpr fun e he => by
      rw [isErrorEvt_eq_false (hscan e he).2.1]; simp
  have hscanDone : (runScanner chunks).filter isDoneEvt = [] :=
    List.filter_eq_nil_iff.mpr fun e he => by
      rw [isDoneEvt_eq_false (hscan e he).2.2]; simp
  refine ⟨⟨?_, ?_, ?_⟩, ?_, ?_, ?_⟩
  · show ((feedAll [] chunks).1 ++ [Event.error errMsg]).filter isErrorEvt = [Event.error errMsg]
    rw [List.filter_append, hfeedErr]
    rfl
  · exact List.getLast?_concat _
  · show ((feedAll [] chunks).1 ++ [Event.error errMsg]).filter isDoneEvt = []
    rw [List.filter_append, hfeedDone]
    rfl
  · show (runScanner chunks ++ [Event.done]).filter isErrorEvt = []
    rw [List.filter_append, hscanErr]
    rfl
  · show (runScanner chunks ++ [Event.done]).filter isDoneEvt = [Event.done]
    rw [List.filter_append, hscanDone]
    rfl
  · exact List.getLast?_concat _

/-- Claim C10: an empty (or whitespace-only) question short-circuits the
endpoint to a stream consisting of exactly one `error` event, independently
of the agent stream (the pipeline result is never consulted). -/
theorem C10_empty_question (q : List Char) (chunks : List (List Char))
    (excMsg : Option (List Char)) (h : q.all isPySpace = true) :
    chatEndpoint q chunks excMsg = [.error emptyQuestionMsg] := by
  unfold chatEndpoint
  rw [if_pos h]

/-- Claim C10 witness: a whitespace-only question with a nonempty agent
stream still produces only the error event. -/
theorem C10_empty_question_witness :
    chatEndpoint [' ', '\t'] [['x']] none = [.error emptyQuestionMsg] :=
  C10_empty_question [' ', '\t'] [['x']] none (by decide)

/-- Claim C8: payload encoding at the three per-chunk resolution sites.  An
image payload is emitted unchanged (the raw slice `buffer[7:-1]`), an
image-meta payload is emitted base64-encoded and decodes back to the raw
slice `buffer[12:-1]`, and a chart payload is emitted base64-encoded and
decodes back to the raw extracted span. -/
theorem C8_payload_encoding (buf chunk : List Char) :
    (imgCond (buf ++ chunk) = true →
      feedChunk buf chunk = ([.image (((buf ++ chunk).drop 7).dropLast)], [])) ∧
    (imgCond (buf ++ chunk) = false → metaCond (buf ++ chunk) = true →
      feedChunk buf chunk
        = ([.imageMeta (strB64 (((buf ++ chunk).drop 12).dropLast))], []) ∧
      strB64decode (strB64 (((buf ++ chunk).drop 12).dropLast))
        = some (((buf ++ chunk).drop 12).dropLast)) ∧
    (∀ pre pay rest, imgCond (buf ++ chunk) = false → metaCond (buf ++ chunk) = false →
      chartAttempt (buf ++ chunk) = some (pre, pay, rest) →
      feedChunk buf chunk
        = ((if hasNonWs pre then [plainEvent pre] else []) ++ [.chart (strB64 pay)], rest) ∧
      strB64decode (strB64 pay) = some pay) := by
  refine ⟨?_, ?_, ?_⟩
  · intro himg
    simp [feedChunk, himg]
  · intro himg hmeta
    exact ⟨by simp [feedChunk, himg, hmeta], strB64_roundtrip _⟩
  · intro pre pay rest himg hmeta hca
    exact ⟨by simp [feedChunk, himg, hmeta, hca], strB64_roundtrip _⟩

/-- Claim C8 witness: the three resolution branches at concrete inputs. -/
theorem C8_payload_encoding_witness :
    (feedChunk [] "[IMAGE:QQ==]".data
      = ([.image ((("[IMAGE:QQ==]".data).drop 7).dropLast)], [])) ∧
    (feedChunk [] "[IMAGE_META:{}]".data
      = ([.imageMeta (strB64 ((("[IMAGE_META:{}]".data).drop 12).dropLast))], []) ∧
     strB64decode (strB64 ((("[IMAGE_META:{}]".data).drop 12).dropLast))
      = some ((("[IMAGE_META:{}]".data).drop 12).dropLast)) ∧
    (feedChunk [] "[CHART:{}]".data
      = ((if hasNonWs [] then [plainEvent []] else []) ++ [.chart (strB64 ['{', '}'])], []) ∧
     strB64decode (strB64 ['{', '}']) = some ['{', '}']) :=
  ⟨(C8_payload_encoding [] "[IMAGE:QQ==]".data).1 (by decide),
   (C8_payload_encoding [] "[IMAGE_META:{}]".data).2.1 (by decide) (by decide),
   (C8_payload_encoding [] "[CHART:{}]".data).2.2 [] ['{', '}'] []
     (by decide) (by decide) (by decide)⟩

/-! ### Overflow guard (C6) -/

lemma countSubGo_replicate {c0 : Char} (ps : List Char) (h : (c0 == 'x') = false) :
    ∀ (n skip : Nat), countSubGo (c0 :: ps) (List.replicate n 'x') skip = 0
  | 0, skip => by cases skip <;> rfl
  | n + 1, 0 => by
    rw [List.replicate_succ]
    show (if startsWith (c0 :: ps) ('x' :: List.replicate n 'x') then
        1 + countSubGo (c0 :: ps) (List.replicate n 'x') ((c0 :: ps).length - 1)
      else countSubGo (c0 :: ps) (List.replicate n 'x') 0) = 0
    have hp : ¬(startsWith (c0 :: ps) ('x' :: List.replicate n 'x') = true) := by
      rw [startsWith_cons, h]
      simp
    rw [if_neg hp]
    exact countSubGo_replicate ps h n 0
  | n + 1, skip + 1 => by
    rw [List.replicate_succ]
    exact countSubGo_replicate ps h n skip

lemma containsSub_replicate {c0 : Char} (ps : List Char) (h : (c0 == 'x') = false) :
    ∀ n : Nat, containsSub (List.replicate n 'x') (c0 :: ps) = false
  | 0 => rfl
  | n + 1 => by
    rw [List.replicate_succ]
    show (startsWith (c0 :: ps) ('x' :: List.replicate n 'x')
      || containsSub (List.replicate n 'x') (c0 :: ps)) = false
    rw [startsWith_cons, h, containsSub_replicate ps h n]
    simp

lemma countSub_chartHdr_chartPfx (n : Nat) :
    countSub ("[CHART:{}]".data ++ List.replicate n 'x') chartPfx = 1 := by
  have h1 : countSub ("[CHART:{}]".data ++ List.replicate n 'x') chartPfx
      = 1 + countSubGo chartPfx (List.replicate n 'x') 0 := rfl
  rw [h1, show chartPfx = '[' :: "CHART:".data from rfl,
    @countSubGo_replicate '[' "CHART:".data (by decide) n 0]

lemma countSub_chartHdr_closeBr (n : Nat) :
    countSub ("[CHART:{}]".data ++ List.replicate n 'x') closeBr = 1 := by
  have h1 : countSub ("[CHART:{}]".data ++ List.replicate n 'x') closeBr
      = 1 + countSubGo closeBr (List.replicate n 'x') 0 := rfl
  rw [h1, show closeBr = ']' :: ([] : List Char) from rfl,
    @countSubGo_replicate ']' [] (by decide) n 0]

lemma countSub_chartHdr_escClose (n : Nat) :
    countSub ("[CHART:{}]".data ++ List.replicate n 'x') escClose = 0 := by
  have h1 : countSub ("[CHART:{}]".data ++ List.replicate n 'x') escClose
      = countSubGo escClose (List.replicate n 'x') 0 := rfl
  rw [h1, show escClose = '\\' :: [']'] from rfl, @countSubGo_replicate '\\' [']'] (by decide) n 0]

lemma chartHeuristic_chartHdr (n : Nat) :
    chartHeuristic ("[CHART:{}]".data ++ List.replicate n 'x') = true := by
  unfold chartHeuristic
  rw [countSub_chartHdr_chartPfx n, countSub_chartHdr_closeBr n, countSub_chartHdr_escClose n,
    show containsSub ("[CHART:{}]".data ++ List.replicate n 'x') chartPfx = true from rfl]
  rfl

/-- Feeding `[CHART:{}]` followed by `n` trailing characters resolves the
chart span and retains the whole `n`-character remainder in the buffer. -/
lemma feedChunk_chartHdr (n : Nat) :
    feedChunk [] ("[CHART:{}]".data ++ List.replicate n 'x')
      = ([.chart (strB64 ['{', '}'])], List.replicate n 'x') := by
  have hca : chartAttempt (([] : List Char) ++ ("[CHART:{}]".data ++ List.replicate n 'x'))
      = some ([], ['{', '}'], List.replicate n 'x') := by
    show chartAttempt ("[CHART:{}]".data ++ List.replicate n 'x') = _
    unfold chartAttempt
    rw [if_pos (chartHeuristic_chartHdr n)]
    rfl
  have h1 : imgCond (([] : List Char) ++ ("[CHART:{}]".data ++ List.replicate n 'x'))
      = false := rfl
  have h2 : metaCond (([] : List Char) ++ ("[CHART:{}]".data ++ List.replicate n 'x'))
      = false := rfl
  simp only [feedChunk]
  rw [if_neg (fun hx => Bool.false_ne_true (h1 ▸ hx)),
    if_neg (fun hx => Bool.false_ne_true (h2 ▸ hx)), hca]
  rfl

def c6big : List Char := "[CHART:{}]".data ++ List.replicate 50001 'x'

/-- Claim C6 (counterexample): after a single feed of
`"[CHART:{}]" ++ "x" * 50001`, the chart span resolves and the buffer
retained for the next feed call has 50001 characters — above the 50,000
ceiling.  The ceiling only limits buffers kept by the candidate-accumulation
branch, not the remainder left after a resolved chart span. -/
theorem C6_ceiling_counterexample :
    50000 < (feedChunk [] c6big).2.length := by
  rw [show (feedChunk [] c6big).2 = List.replicate 50001 'x' from by
    rw [show c6big = "[CHART:{}]".data ++ List.replicate 50001 'x' from rfl,
      feedChunk_chartHdr 50001]]
  rw [List.length_replicate]
  norm_num

lemma feedChunk_retention (buf chunk : List Char) :
    (feedChunk buf chunk).2 = [] ∨
    ((feedChunk buf chunk).2 = buf ++ chunk ∧ (buf ++ chunk).length < 50000) ∨
    (∃ pre pay, chartAttempt (buf ++ chunk) = some (pre, pay, (feedChunk buf chunk).2)) := by
  simp only [feedChunk]
  split
  · left; rfl
  · split
    · left; rfl
    · split
      · next pre pay rest heq =>
        right; right
        exact ⟨pre, pay, by simpa using heq⟩
      · split
        · next hcond =>
          right; left
          refine ⟨rfl, ?_⟩
          rcases (Bool.and_eq_true _ _).mp hcond with ⟨_, h2⟩
          exact of_decide_eq_true h2
        · left; rfl

/-- Claim C6 (amended): (a) when the buffer is in candidate state, none of
the marker branches resolves, and the length has reached the 50,000 ceiling,
the whole buffer is emitted as one plain-text event and the buffer resets to
empty; (b) a nonempty buffer retained by a feed call is below the ceiling
unless it is the remainder left after a resolved chart span (which may exceed
it, as the counterexample shows). -/
theorem C6_overflow_amended (buf chunk : List Char) :
    (candidate (buf ++ chunk) = true →
     imgCond (buf ++ chunk) = false →
     metaCond (buf ++ chunk) = false →
     chartAttempt (buf ++ chunk) = none →
     50000 ≤ (buf ++ chunk).length →
     feedChunk buf chunk = ([plainEvent (buf ++ chunk)], [])) ∧
    ((feedChunk buf chunk).2 ≠ [] →
     (feedChunk buf chunk).2.length < 50000 ∨
     ∃ pre pay, chartAttempt (buf ++ chunk) = some (pre, pay, (feedChunk buf chunk).2)) := by
  constructor
  · intro hcand himg hmeta hca hlen
    have hno : (candidate (buf ++ chunk) && decide ((buf ++ chunk).length < 50000)) = false := by
      rw [hcand, Bool.true_and, decide_eq_false (by omega)]
    rw [List.length_append] at hlen
    simp [feedChunk, himg, hmeta, hca, hno]
    exact fun _ => hlen
  · intro hne
    rcases feedChunk_retention buf chunk with h | ⟨h1, h2⟩ | ⟨pre, pay, h⟩
    · exact absurd h hne
    · left; rw [h1]; exact h2
    · right; exact ⟨pre, pay, h⟩

def cand50000 : List Char := '[' :: List.replicate 49999 'x'

lemma candidate_cand50000 : candidate (([] : List Char) ++ cand50000) = true := rfl

lemma imgCond_cand50000 : imgCond (([] : List Char) ++ cand50000) = false := rfl

lemma metaCond_cand50000 : metaCond (([] : List Char) ++ cand50000) = false := rfl

lemma chartAttempt_cand50000 : chartAttempt (([] : List Char) ++ cand50000) = none := by
  apply chartAttempt_none_of_not_contains
  show containsSub cand50000 chartPfx = false
  rw [show containsSub cand50000 chartPfx
      = (startsWith chartPfx cand50000 || containsSub (List.replicate 49999 'x') chartPfx)
    from rfl]
  rw [show startsWith chartPfx cand50000 = false from rfl,
    show chartPfx = '[' :: "CHART:".data from rfl,
    @containsSub_replicate '[' "CHART:".data (by decide) 49999]
  rfl

lemma length_cand50000 : 50000 ≤ (([] : List Char) ++ cand50000).length := by
  rw [List.nil_append]
  show 50000 ≤ ('[' :: List.replicate 49999 'x').length
  rw [List.length_cons, List.length_replicate]

/-- Claim C6 witness: part (a) at a 50,000-character unresolved candidate
buffer, part (b) at a one-character candidate buffer. -/
theorem C6_overflow_amended_witness :
    feedChunk [] cand50000 = ([plainEvent (([] : List Char) ++ cand50000)], []) ∧
    ((feedChunk [] ['[']).2.length < 50000 ∨
     ∃ pre pay, chartAttempt (([] : List Char) ++ ['['])
       = some (pre, pay, (feedChunk [] ['[']).2)) :=
  ⟨(C6_overflow_amended [] cand50000).1 candidate_cand50000 imgCond_cand50000
      metaCond_cand50000 chartAttempt_cand50000 length_cand50000,
   (C6_overflow_amended [] ['[']).2 (by decide)⟩

end AgentRouter
